import Mathlib

/-!
Verification of glium_text (src/lib.rs): a shallow embedding of the font-atlas
builder and the text-mesh builder, with theorems about the atlas packing
algorithm, the mesh generation, and the draw entry point.

Conventions of the embedding:
* u32/usize quantities are modelled as Nat; the places where the Rust code
  truncates to a fixed width (the u16 index values, the usize bitwise
  negation, the 32-bit shift cascade of get_nearest_po2) carry an explicit
  percent 2^w.
* f32 quantities are modelled as exact rationals.
* Functions that can panic in Rust (failed assert, out-of-bounds slice
  indexing) return Option, with none marking the panic.
* The freetype calls are external: a font face at a fixed pixel size is
  modelled as a partial map from characters to rasterized glyphs; a char on
  which FT_Load_Glyph fails is mapped to none.  Unicode NFC normalization
  (the nfc_chars iterator of set_text) is likewise an external function,
  passed as a parameter.
-/

/-! ### Embedding definitions, invariants and concrete fixtures -/

/-- Result of rasterizing one glyph: the fields of FT_GlyphSlot/FT_Bitmap that
build_font_image reads.  buffer holds the coverage bytes (0..255), row-major,
rows * width entries. -/
structure Glyph where
  width : Nat
  rows : Nat
  buffer : List Nat
  advance_x : Int
  bitmap_left : Int
  bitmap_top : Int
deriving DecidableEq

/-- CharacterInfos of src/lib.rs (lines 73-87): per-character metrics, in
pixel units during packing, normalized to texture units at the end of
build_font_image. -/
structure CharacterInfos where
  coords : ℚ × ℚ
  size : ℚ × ℚ
  height_over_line : ℚ
  left_padding : ℚ
  right_padding : ℚ
deriving DecidableEq

/-- Function get_nearest_po2 of src/lib.rs (lines 481-490), operating on u32.
The assert x > 0 is modelled by returning none.  For x >= 1 the decrement
cannot underflow and the shift-or cascade stays below 2^32, but the final
increment is a u32 addition: for inputs above 2^31 the cascade yields
2^32 - 1 and the increment wraps to 0 (the release semantics, taken as the
model here; a debug build panics on that same overflow). -/
def get_nearest_po2 (x : Nat) : Option Nat :=
  if x = 0 then none
  else
    let x := x - 1
    let x := x ||| (x >>> 1)
    let x := x ||| (x >>> 2)
    let x := x ||| (x >>> 4)
    let x := x ||| (x >>> 8)
    let x := x ||| (x >>> 16)
    some ((x + 1) % 2 ^ 32)

/-- State mutated by the packing loop of build_font_image (lines 379-452):
the flat texture buffer, the cursor, the shelf height, and the metrics
collected so far (in pixel units). -/
structure PackState where
  texture_data : List ℚ
  cursor : Nat × Nat
  rows_to_skip : Nat
  infos : List (Char × CharacterInfos)
deriving DecidableEq

/-- Initial packing state: empty buffer, cursor (0,0), rows_to_skip = 0. -/
def initPackState : PackState := ⟨[], (0, 0), 0, []⟩

/-- CharacterInfos recorded for a glyph at lines 443-451 of src/lib.rs, in
pixel units (advance.x is 26.6 fixed point, hence the arithmetic shift by 6,
i.e. flooring division by 64). -/
def glyphInfos (g : Glyph) (offset_x_before_copy : Nat) (cursor_y : Nat) : CharacterInfos :=
  { left_padding := (g.bitmap_left : ℚ)
    right_padding := ((Int.fdiv g.advance_x 64 - (g.width : Int) - g.bitmap_left : Int) : ℚ)
    height_over_line := (g.bitmap_top : ℚ)
    size := ((g.width : ℚ), (g.rows : ℚ))
    coords := ((offset_x_before_copy : ℚ), (cursor_y : ℚ)) }

/-- Carriage-return step of the packing loop (lines 400-406): wrap the cursor
when cursor.x + width >= texture_width; the assert that the glyph is no wider
than the texture is modelled by none. -/
def carriageReturn (texW : Nat) (st : PackState) (g : Glyph) : Option PackState :=
  if texW ≤ st.cursor.1 + g.width then
    if g.width ≤ texW then
      some { st with cursor := (0, st.cursor.2 + st.rows_to_skip), rows_to_skip := 0 }
    else none
  else some st

/-- Buffer-growing step of the packing loop (lines 409-413): extend the flat
buffer with zero rows when the current shelf is shorter than the glyph. -/
def growRows (texW : Nat) (st : PackState) (g : Glyph) : PackState :=
  if st.rows_to_skip < g.rows then
    { st with rows_to_skip := g.rows
              texture_data := st.texture_data ++ List.replicate ((g.rows - st.rows_to_skip) * texW) 0 }
  else st

/-- Pixel copy of lines 422-434: write each coverage byte, divided by 255,
into the flat buffer at cursor + (y, x).  List.set is a no-op out of bounds,
but copyGlyph only calls this when every write is in bounds. -/
def writeGlyph (texW : Nat) (g : Glyph) (start : Nat) (data : List ℚ) : List ℚ :=
  (List.range g.rows).foldl
    (fun d y =>
      (List.range g.width).foldl
        (fun d2 x => d2.set (start + y * texW + x) ((g.buffer.getD (y * g.width + x) 0 : ℚ) / 255))
        d)
    data

/-- Copy step of the packing loop (lines 416-438): when the bitmap has at
least one row, copy it at the cursor and advance cursor.x by the width.  A
write that would fall outside the buffer is a Rust slice-indexing panic,
modelled by none. -/
def copyGlyph (texW : Nat) (st : PackState) (g : Glyph) : Option PackState :=
  if 1 ≤ g.rows then
    let start := st.cursor.1 + st.cursor.2 * texW
    if start + (g.rows - 1) * texW + g.width ≤ st.texture_data.length then
      some { st with texture_data := writeGlyph texW g start st.texture_data
                     cursor := (st.cursor.1 + g.width, st.cursor.2) }
    else none
  else some st

/-- Body of the filter_map closure of build_font_image (lines 393-452) for a
glyph that did load: carriage return, grow the buffer, copy the bitmap and
record the metrics entry. -/
def processGlyph (texW : Nat) (st : PackState) (c : Char) (g : Glyph) : Option PackState :=
  (carriageReturn texW st g).bind fun st1 =>
    let st2 := growRows texW st1 g
    let offset_x_before_copy := st2.cursor.1
    (copyGlyph texW st2 g).map fun st3 =>
      { st3 with infos := st3.infos ++ [(c, glyphInfos g offset_x_before_copy st3.cursor.2)] }

/-- One iteration of the packing loop: a glyph on which FT_Load_Glyph fails is
skipped (the closure returns None and filter_map drops it). -/
def packChar (raster : Char → Option Glyph) (texW : Nat) (st : PackState) (c : Char) :
    Option PackState :=
  match raster c with
  | none => some st
  | some g => processGlyph texW st c g

/-- Whole packing loop over the enumerated character list. -/
def packChars (raster : Char → Option Glyph) (texW : Nat) :
    List Char → PackState → Option PackState
  | [], st => some st
  | c :: rest, st => (packChar raster texW st c).bind (packChars raster texW rest)

/-- Normalization loop of lines 466-474: divide the x-axis metrics by the
final texture width and the y-axis metrics by the final texture height. -/
def normalizeInfos (texW texH : Nat) (i : CharacterInfos) : CharacterInfos :=
  { coords := (i.coords.1 / (texW : ℚ), i.coords.2 / (texH : ℚ))
    size := (i.size.1 / (texW : ℚ), i.size.2 / (texH : ℚ))
    height_over_line := i.height_over_line / (texH : ℚ)
    left_padding := i.left_padding / (texW : ℚ)
    right_padding := i.right_padding / (texW : ℚ) }

/-- Return value of build_font_image: the flat pixel buffer, the texture
dimensions, and the normalized per-character metrics. -/
structure FontImage where
  texture_data : List ℚ
  dims : Nat × Nat
  infos : List (Char × CharacterInfos)
deriving DecidableEq

/-- Function build_font_image of src/lib.rs (lines 368-478).  none models a
panic: a failed assert inside the packing loop, an out-of-bounds write, the
assert of get_nearest_po2 (reached with 0 when no glyph contributed any
row), or the division by a zero texture_width at line 456.  All u32
arithmetic carries an explicit % 2^32: the two multiplications and the
doubling of the width heuristic at line 383, the len() as u32 casts at lines
383, 456, 463 and 464 (as-casts truncate in both build modes), and the
subtraction and multiplication inside the padding count at line 458 (these
wrap in release — the semantics modelled here — and panic in debug). -/
def build_font_image (raster : Char → Option Glyph) (characters_list : List Char)
    (font_size : Nat) : Option FontImage := do
  let texture_width ← get_nearest_po2
    (max (font_size * 2 % 2 ^ 32)
      (Nat.sqrt (characters_list.length % 2 ^ 32 * font_size % 2 ^ 32 * font_size % 2 ^ 32)))
  let st ← packChars raster texture_width characters_list initPackState
  if texture_width = 0 then none
  else do
    let current_height := st.texture_data.length % 2 ^ 32 / texture_width
    let requested_height ← get_nearest_po2 current_height
    let texture_data := st.texture_data ++
      List.replicate
        (texture_width * ((requested_height + 2 ^ 32 - current_height) % 2 ^ 32) % 2 ^ 32) 0
    if texture_data.length % 2 ^ 32 % texture_width ≠ 0 then none
    else
      let texture_height := texture_data.length % 2 ^ 32 / texture_width
      some { texture_data := texture_data
             dims := (texture_width, texture_height)
             infos := st.infos.map fun p => (p.1, normalizeInfos texture_width texture_height p.2) }

/-- FontTexture of src/lib.rs (lines 49-52): the GPU texture itself is an
external resource; the embedding keeps the character map. -/
structure FontTexture where
  character_infos : List (Char × CharacterInfos)
deriving DecidableEq

/-- FontTexture::new (lines 99-184): build the font image and keep the
character map (the texture upload is the external rendering boundary). -/
def FontTexture_new (raster : Char → Option Glyph) (characters_list : List Char)
    (font_size : Nat) : Option FontTexture :=
  (build_font_image raster characters_list font_size).map fun fi => ⟨fi.infos⟩

/-- VertexFormat of src/lib.rs (lines 90-93). -/
structure VertexFormat where
  position : ℚ × ℚ
  tex_coords : ℚ × ℚ
deriving DecidableEq

/-- TextDisplay of src/lib.rs (lines 63-70), minus the GPU display handle;
the buffers hold the raw data handed to glium. -/
structure TextDisplay where
  texture : FontTexture
  vertex_buffer : Option (List VertexFormat)
  index_buffer : Option (List Nat)
  total_text_width : ℚ
  is_empty : Bool
deriving DecidableEq

/-- Accumulator of the set_text character loop: the two growing buffers plus
the two fields of self that the loop mutates. -/
structure SetTextAcc where
  vbd : List VertexFormat
  ibd : List Nat
  total : ℚ
  empty : Bool
deriving DecidableEq

/-- The four vertices pushed for one glyph at lines 299-321, in source order:
top-left, top-right, bottom-left, bottom-right. -/
def quadVertices (infos : CharacterInfos) (left_coord : ℚ) : List VertexFormat :=
  let right_coord := left_coord + infos.size.1
  let top_coord := infos.height_over_line
  let bottom_coord := infos.height_over_line - infos.size.2
  [⟨(left_coord, top_coord), (infos.coords.1, infos.coords.2)⟩,
   ⟨(right_coord, top_coord), (infos.coords.1 + infos.size.1, infos.coords.2)⟩,
   ⟨(left_coord, bottom_coord), (infos.coords.1, infos.coords.2 + infos.size.2)⟩,
   ⟨(right_coord, bottom_coord), (infos.coords.1 + infos.size.1, infos.coords.2 + infos.size.2)⟩]

/-- The six index values pushed for one glyph at lines 281-287.  len is the
current vertex count; the code truncates it to u16 and the u16 additions wrap
modulo 2^16. -/
def idxBlock (len : Nat) : List Nat :=
  let f := len % 65536
  [f, (f + 1) % 65536, (f + 2) % 65536, (f + 2) % 65536, (f + 1) % 65536, (f + 3) % 65536]

/-- One iteration of the set_text character loop (lines 268-325): look the
character up in the font's character map; on a miss the loop continues with
nothing changed. -/
def setTextStep (character_infos : List (Char × CharacterInfos)) (acc : SetTextAcc)
    (character : Char) : SetTextAcc :=
  match character_infos.find? fun p => p.1 == character with
  | none => acc
  | some p =>
    let infos := p.2
    { vbd := acc.vbd ++ quadVertices infos (acc.total + infos.left_padding)
      ibd := acc.ibd ++ idxBlock acc.vbd.length
      total := acc.total + infos.left_padding + infos.size.1 + infos.right_padding
      empty := false }

/-- TextDisplay::set_text of src/lib.rs (lines 252-334).  The final guard of
line 327 is the source's literal condition: the bitwise NOT of the usize
vertex count must be nonzero, i.e. the count must differ from usize::MAX. -/
def setText (nfc : List Char → List Char) (display : TextDisplay) (text : List Char) :
    TextDisplay :=
  let display := { display with is_empty := true, total_text_width := 0,
                                vertex_buffer := none, index_buffer := none }
  if text.length = 0 then display
  else
    let acc := (nfc text).foldl (setTextStep display.texture.character_infos) ⟨[], [], 0, true⟩
    if acc.vbd.length % 2 ^ 64 ≠ 2 ^ 64 - 1 then
      { display with vertex_buffer := some acc.vbd, index_buffer := some acc.ibd,
                     total_text_width := acc.total, is_empty := acc.empty }
    else
      { display with total_text_width := acc.total, is_empty := acc.empty }

/-- TextDisplay::new (lines 231-244): start from empty buffers and call
set_text. -/
def TextDisplay_new (nfc : List Char → List Char) (texture : FontTexture)
    (text : List Char) : TextDisplay :=
  setText nfc ⟨texture, none, none, 0, true⟩ text

/-- TextDisplay::get_width (lines 247-249). -/
def get_width (display : TextDisplay) : ℚ := display.total_text_width

/-- Matrix argument of draw, four rows of four f32 entries. -/
abbrev Mat4 : Type :=
  (ℚ × ℚ × ℚ × ℚ) × (ℚ × ℚ × ℚ × ℚ) × (ℚ × ℚ × ℚ × ℚ) × (ℚ × ℚ × ℚ × ℚ)

/-- Arguments of the one target.draw call that the draw function can issue
(line 365): the mesh buffers plus the matrix and color uniforms. -/
structure DrawParams where
  vertices : List VertexFormat
  indices : List Nat
  matrix : Mat4
  color : ℚ × ℚ × ℚ × ℚ
deriving DecidableEq

/-- Function draw of src/lib.rs (lines 343-366).  The target surface is
modelled as the list of draw calls it has received; draw either returns it
unchanged (the early return of lines 348-350) or appends the one call. -/
def draw (text : TextDisplay) (target : List DrawParams) (matrix : Mat4)
    (color : ℚ × ℚ × ℚ × ℚ) : List DrawParams :=
  if text.is_empty || text.vertex_buffer.isNone || text.index_buffer.isNone then target
  else
    target ++ [{ vertices := text.vertex_buffer.getD []
                 indices := text.index_buffer.getD []
                 matrix := matrix
                 color := color }]

/-- One step of the shift-or cascade of get_nearest_po2. -/
def orShift (m a : Nat) : Nat := a ||| (a >>> m)

/-- Metrics of the characters of a string that are present in the font's
character map, in string order; characters absent from the map are skipped. -/
def matchedInfos (character_infos : List (Char × CharacterInfos)) (l : List Char) :
    List CharacterInfos :=
  l.filterMap fun c => (character_infos.find? fun p => p.1 == c).map Prod.snd

/-- Vertices the set_text loop appends for a run of matched glyphs, with the
pen starting at t: one quad per glyph, each advancing the pen. -/
def quadsFrom (t : ℚ) : List CharacterInfos → List VertexFormat
  | [] => []
  | i :: rest =>
    quadVertices i (t + i.left_padding) ++
      quadsFrom (t + i.left_padding + i.size.1 + i.right_padding) rest

/-- Index values the set_text loop appends for a run of matched glyphs, with
base the vertex count on entry: one block of six per glyph. -/
def idxFrom (base : Nat) : List CharacterInfos → List Nat
  | [] => []
  | _ :: rest => idxBlock base ++ idxFrom (base + 4) rest

/-- Pen position after laying out a run of matched glyphs starting at t. -/
def advanceFrom (t : ℚ) : List CharacterInfos → ℚ
  | [] => t
  | i :: rest => advanceFrom (t + i.left_padding + i.size.1 + i.right_padding) rest

/-- Pen position in front of the n-th glyph of a matched run started at t. -/
def penAt (t : ℚ) : List CharacterInfos → Nat → ℚ
  | _, 0 => t
  | [], _ + 1 => t
  | i :: rest, n + 1 => penAt (t + i.left_padding + i.size.1 + i.right_padding) rest n

/-- Sample normalized metrics used by the concrete fixtures. -/
def sampleInfos : CharacterInfos := ⟨(0, 0), (1, 1), 0, 0, 0⟩

/-- Font texture whose character map holds only the letter b. -/
def sampleTexture : FontTexture := ⟨[('b', sampleInfos)]⟩

/-- Text display over sampleTexture with nothing set yet. -/
def sampleDisplay : TextDisplay := ⟨sampleTexture, none, none, 0, true⟩

/-- Text consisting of 16385 copies of the letter b. -/
def repText : List Char := List.replicate 16385 'b'

/-- Glyph with a one-pixel-wide, zero-row bitmap (like a space character). -/
def gNoRows : Glyph := ⟨1, 0, [], 0, 0, 0⟩

/-- Packing state after processing gNoRows from the initial state. -/
def stNoRows : PackState := ⟨[], (0, 0), 0, [('b', glyphInfos gNoRows 0 0)]⟩

/-- Raster producing one-pixel glyphs (width 1, one row) for every char. -/
def cexWideRaster : Char → Option Glyph := fun _ => some ⟨1, 1, [0], 0, 0, 0⟩

/-- Raster giving the letter b an empty (zero-row, zero-width) bitmap and
every other char a one-pixel bitmap. -/
def cexMixedRaster : Char → Option Glyph := fun c =>
  if c = 'b' then some ⟨0, 0, [], 0, 0, 0⟩ else some ⟨1, 1, [0], 0, 0, 0⟩

/-- Invariant of the packing loop: the flat buffer covers exactly the shelves
up to cursor.y + rows_to_skip, and the cursor never passes the right edge. -/
def LenInv (texW : Nat) (st : PackState) : Prop :=
  st.texture_data.length = (st.cursor.2 + st.rows_to_skip) * texW ∧ st.cursor.1 ≤ texW

/-- Raster mapping every char to the zero-row glyph gNoRows. -/
def cexNoRowsRaster : Char → Option Glyph := fun _ => some gNoRows

/-- Pixel-space point strictly inside a recorded rectangle: origin at coords,
extent size (all pre-normalization, in pixel units). -/
def texelIn (px py : ℚ) (i : CharacterInfos) : Prop :=
  i.coords.1 ≤ px ∧ px < i.coords.1 + i.size.1 ∧
  i.coords.2 ≤ py ∧ py < i.coords.2 + i.size.2

/-- No texel position lies inside both rectangles. -/
def RectDisjoint (a b : CharacterInfos) : Prop :=
  ∀ px py : ℚ, ¬ (texelIn px py a ∧ texelIn px py b)

/-- Where a recorded rectangle can sit relative to the packing cursor: it is
empty, or closed off strictly above the current shelf, or on the current
shelf entirely to the left of the cursor within the reserved height. -/
def placedOk (cx cy rts : Nat) (i : CharacterInfos) : Prop :=
  i.size.1 = 0 ∨ i.size.2 = 0 ∨
  i.coords.2 + i.size.2 ≤ (cy : ℚ) ∨
  ((cy : ℚ) ≤ i.coords.2 ∧ i.coords.2 + i.size.2 ≤ (cy : ℚ) + (rts : ℚ) ∧
   i.coords.1 + i.size.1 ≤ (cx : ℚ))

/-- Invariant of the packing loop: every recorded rectangle is placed
consistently with the cursor, and all recorded rectangles are pairwise
disjoint. -/
def PackInv (st : PackState) : Prop :=
  (∀ p ∈ st.infos, placedOk st.cursor.1 st.cursor.2 st.rows_to_skip p.2) ∧
  st.infos.Pairwise fun a b => RectDisjoint a.2 b.2

/-- Packing state after running cexNoRowsRaster over two characters. -/
def stTwoNoRows : PackState :=
  ⟨[], (0, 0), 0, [('a', glyphInfos gNoRows 0 0), ('b', glyphInfos gNoRows 0 0)]⟩

/-- Glyph three pixels wide with one row, wider than the width-2 atlas that
the heuristic chooses for a one-character font at pixel size 1. -/
def gOverWide : Glyph := ⟨3, 1, [0, 0, 0], 0, 0, 0⟩

/-- Raster mapping every char to gOverWide. -/
def cexOverWideRaster : Char → Option Glyph := fun _ => some gOverWide

/-! ### Lemmas and claim theorems -/

/-- Unfolding of get_nearest_po2 through the five cascade steps. -/
lemma get_nearest_po2_eq (x : Nat) :
    get_nearest_po2 x =
      if x = 0 then none
      else some ((orShift 16 (orShift 8 (orShift 4 (orShift 2 (orShift 1 (x - 1))))) + 1)
        % 2 ^ 32) := by
  unfold get_nearest_po2 orShift
  rfl

/-- Shift-or cascade step: if a covers a window of m bits of y, then
orShift m a covers a window of 2 * m bits. -/
lemma orShift_spec {y m : Nat} {a : Nat}
    (h : ∀ i, a.testBit i = true ↔ ∃ d, d < m ∧ y.testBit (i + d) = true) :
    ∀ i, (orShift m a).testBit i = true ↔ ∃ d, d < 2 * m ∧ y.testBit (i + d) = true := by
  intro i
  rw [orShift, Nat.testBit_or, Nat.testBit_shiftRight, Bool.or_eq_true, h i, h (m + i)]
  constructor
  · rintro (⟨d, hd, hbit⟩ | ⟨d, hd, hbit⟩)
    · exact ⟨d, by omega, hbit⟩
    · exact ⟨m + d, by omega, by rwa [show i + (m + d) = m + i + d by omega]⟩
  · rintro ⟨d, hd, hbit⟩
    by_cases hdm : d < m
    · exact Or.inl ⟨d, hdm, hbit⟩
    · exact Or.inr ⟨d - m, by omega, by rwa [show m + i + (d - m) = i + d by omega]⟩

/-- The five-step cascade covers a 32-bit window. -/
lemma po2cascade_spec (y : Nat) :
    ∀ i, (orShift 16 (orShift 8 (orShift 4 (orShift 2 (orShift 1 y))))).testBit i = true ↔
      ∃ d, d < 32 ∧ y.testBit (i + d) = true := by
  have h0 : ∀ i, y.testBit i = true ↔ ∃ d, d < 1 ∧ y.testBit (i + d) = true := by
    intro i
    constructor
    · intro hbit; exact ⟨0, Nat.zero_lt_one, by simpa using hbit⟩
    · rintro ⟨d, hd, hbit⟩; interval_cases d; simpa using hbit
  have h5 := orShift_spec (orShift_spec (orShift_spec (orShift_spec (orShift_spec h0))))
  simpa using h5

/-- The highest set bit of a nonzero number is at position log2. -/
lemma testBit_log2_self {y : Nat} (hy : y ≠ 0) : y.testBit y.log2 = true := by
  rw [Nat.testBit_to_div_mod]
  have h1 : 1 * 2 ^ y.log2 ≤ y := by simpa using Nat.log2_self_le hy
  have h2 : y < (1 + 1) * 2 ^ y.log2 := by
    have h3 := @Nat.lt_log2_self y
    rw [Nat.pow_succ] at h3
    omega
  rw [Nat.div_eq_of_lt_le h1 h2]
  decide

/-- Bits of y live at or below position log2 y. -/
lemma testBit_le_log2 {y j : Nat} (h : y.testBit j = true) : j ≤ y.log2 := by
  have h1 : 2 ^ j ≤ y := Nat.testBit_implies_ge h
  have h2 : y < 2 ^ (y.log2 + 1) := Nat.lt_log2_self
  have h3 := Nat.lt_of_le_of_lt h1 h2
  have h4 := (Nat.pow_lt_pow_iff_right (a := 2) (by norm_num)).mp h3
  omega

/-- The full cascade of a nonzero y below 2^32 yields 2 ^ (log2 y + 1) - 1. -/
lemma po2cascade_eq {y : Nat} (hy0 : y ≠ 0) (hy32 : y < 2 ^ 32) :
    orShift 16 (orShift 8 (orShift 4 (orShift 2 (orShift 1 y)))) = 2 ^ (y.log2 + 1) - 1 := by
  have hl32 : y.log2 < 32 := (Nat.log2_lt hy0).mpr hy32
  apply Nat.eq_of_testBit_eq
  intro i
  rw [Nat.testBit_two_pow_sub_one, Bool.eq_iff_iff, decide_eq_true_iff, po2cascade_spec y i]
  constructor
  · rintro ⟨d, hd, hbit⟩
    have h5 := testBit_le_log2 hbit
    omega
  · intro hil
    refine ⟨y.log2 - i, by omega, ?_⟩
    rw [show i + (y.log2 - i) = y.log2 by omega]
    exact testBit_log2_self hy0

/-- Specification of get_nearest_po2 on inputs of at most 2^31, where the
final u32 increment cannot wrap: the result is a power of two, no smaller
than the input, and less than twice the input. -/
lemma get_nearest_po2_spec {x n : Nat} (h2 : x ≤ 2 ^ 31)
    (h : get_nearest_po2 x = some n) : (∃ k, n = 2 ^ k) ∧ x ≤ n ∧ n < 2 * x := by
  have h1 : x ≠ 0 := by
    intro h0; rw [get_nearest_po2, if_pos h0] at h; exact Option.noConfusion h
  rw [get_nearest_po2_eq, if_neg h1] at h
  simp only [Option.some.injEq] at h
  by_cases hy0 : x - 1 = 0
  · rw [hy0] at h
    have hz : orShift 16 (orShift 8 (orShift 4 (orShift 2 (orShift 1 0)))) = 0 := by decide
    rw [hz] at h
    refine ⟨⟨0, by omega⟩, by omega, by omega⟩
  · have hy32 : x - 1 < 2 ^ 32 := by omega
    rw [po2cascade_eq hy0 hy32] at h
    have hl : (x - 1).log2 < 31 := by
      rw [Nat.log2_lt hy0]
      have : (2 : Nat) ^ 31 < 2 ^ 32 := by norm_num
      omega
    have hpow : 1 ≤ 2 ^ ((x - 1).log2 + 1) := Nat.one_le_two_pow
    have hle : 2 ^ ((x - 1).log2 + 1) ≤ 2 ^ 31 :=
      Nat.pow_le_pow_right (by norm_num) (by omega)
    have hmod : 2 ^ ((x - 1).log2 + 1) - 1 + 1 = 2 ^ ((x - 1).log2 + 1) := by omega
    rw [hmod, Nat.mod_eq_of_lt (by
      have h9 : (2 : Nat) ^ 31 < 2 ^ 32 := by norm_num
      omega)] at h
    have hlt : x - 1 < 2 ^ ((x - 1).log2 + 1) := Nat.lt_log2_self
    have hself : 2 ^ (x - 1).log2 ≤ x - 1 := Nat.log2_self_le hy0
    have hdouble : 2 ^ ((x - 1).log2 + 1) = 2 * 2 ^ (x - 1).log2 := by
      rw [Nat.pow_succ]; ring
    refine ⟨⟨(x - 1).log2 + 1, by omega⟩, by omega, by omega⟩

/-- get_nearest_po2 succeeds exactly on positive inputs. -/
lemma get_nearest_po2_isSome {x : Nat} (h : x ≠ 0) : ∃ n, get_nearest_po2 x = some n := by
  rw [get_nearest_po2_eq, if_neg h]
  exact ⟨_, rfl⟩

lemma quadVertices_length (i : CharacterInfos) (t : ℚ) : (quadVertices i t).length = 4 := rfl

lemma idxBlock_length (n : Nat) : (idxBlock n).length = 6 := rfl

lemma quadsFrom_length (t : ℚ) (m : List CharacterInfos) :
    (quadsFrom t m).length = 4 * m.length := by
  induction m generalizing t with
  | nil => rfl
  | cons i rest ih =>
    rw [quadsFrom, List.length_append, quadVertices_length, ih, List.length_cons]
    ring

lemma idxFrom_length (base : Nat) (m : List CharacterInfos) :
    (idxFrom base m).length = 6 * m.length := by
  induction m generalizing base with
  | nil => rfl
  | cons i rest ih =>
    rw [idxFrom, List.length_append, idxBlock_length, ih, List.length_cons]
    ring

/-- Complete description of the set_text character loop: starting from any
accumulator, the fold appends the quads and index blocks of the matched
glyphs, advances the pen, and clears the empty flag iff a glyph matched. -/
lemma foldl_setTextStep (ci : List (Char × CharacterInfos)) (l : List Char) (acc : SetTextAcc) :
    l.foldl (setTextStep ci) acc =
      ⟨acc.vbd ++ quadsFrom acc.total (matchedInfos ci l),
       acc.ibd ++ idxFrom acc.vbd.length (matchedInfos ci l),
       advanceFrom acc.total (matchedInfos ci l),
       acc.empty && (matchedInfos ci l).isEmpty⟩ := by
  induction l generalizing acc with
  | nil => simp [matchedInfos, quadsFrom, idxFrom, advanceFrom]
  | cons c rest ih =>
    rw [List.foldl_cons]
    cases hf : ci.find? fun p => p.1 == c with
    | none =>
      have hstep : setTextStep ci acc c = acc := by rw [setTextStep, hf]
      have hm : matchedInfos ci (c :: rest) = matchedInfos ci rest := by
        simp [matchedInfos, List.filterMap_cons, hf]
      rw [hstep, ih, hm]
    | some p =>
      have hstep : setTextStep ci acc c =
          ⟨acc.vbd ++ quadVertices p.2 (acc.total + p.2.left_padding),
           acc.ibd ++ idxBlock acc.vbd.length,
           acc.total + p.2.left_padding + p.2.size.1 + p.2.right_padding,
           false⟩ := by rw [setTextStep, hf]
      have hm : matchedInfos ci (c :: rest) = p.2 :: matchedInfos ci rest := by
        simp [matchedInfos, List.filterMap_cons, hf]
      rw [hstep, ih, hm, quadsFrom, idxFrom, advanceFrom]
      simp [List.append_assoc, List.length_append, quadVertices_length]

/-- A multiple of four cannot be congruent to usize::MAX, so the (buggy)
allocation guard of line 327 always passes. -/
lemma four_mul_mod_ne (k : Nat) : 4 * k % 2 ^ 64 ≠ 2 ^ 64 - 1 := by
  intro h
  have h4 : (4 : Nat) ∣ 2 ^ 64 := ⟨2 ^ 62, by norm_num⟩
  have h1 : 4 * k % 2 ^ 64 % 4 = 4 * k % 4 := Nat.mod_mod_of_dvd _ h4
  rw [h, Nat.mul_mod_right] at h1
  norm_num at h1

/-- Closed form of set_text on nonempty text: both buffers are always
allocated (the guard of line 327 is vacuous), holding the quads and index
blocks of the matched glyphs. -/
lemma setText_spec (nfc : List Char → List Char) (display : TextDisplay) (text : List Char)
    (h : text.length ≠ 0) :
    setText nfc display text =
      { display with
        vertex_buffer :=
          some (quadsFrom 0 (matchedInfos display.texture.character_infos (nfc text)))
        index_buffer := some (idxFrom 0 (matchedInfos display.texture.character_infos (nfc text)))
        total_text_width := advanceFrom 0 (matchedInfos display.texture.character_infos (nfc text))
        is_empty := (matchedInfos display.texture.character_infos (nfc text)).isEmpty } := by
  rw [setText]
  rw [if_neg h]
  rw [foldl_setTextStep]
  have hlen : ([] : List VertexFormat).length = 0 := rfl
  simp only [hlen]
  rw [if_pos]
  · simp
  · simp only [List.nil_append]
    rw [quadsFrom_length]
    exact four_mul_mod_ne _

/-- The pen position accumulated by advanceFrom is the starting position plus
the sum of the glyph advances. -/
lemma advanceFrom_eq (t : ℚ) (m : List CharacterInfos) :
    advanceFrom t m =
      t + (m.map fun i => i.left_padding + i.size.1 + i.right_padding).sum := by
  induction m generalizing t with
  | nil => simp [advanceFrom]
  | cons i rest ih =>
    rw [advanceFrom, ih, List.map_cons, List.sum_cons]
    ring

lemma penAt_eq (t : ℚ) (m : List CharacterInfos) (n : Nat) :
    penAt t m n =
      t + ((m.take n).map fun i => i.left_padding + i.size.1 + i.right_padding).sum := by
  induction m generalizing t n with
  | nil => cases n <;> simp [penAt]
  | cons i rest ih =>
    cases n with
    | zero => simp [penAt]
    | succ n' =>
      rw [penAt, ih, List.take_succ_cons, List.map_cons, List.sum_cons]
      ring

/-- The six index values of the n-th glyph of a run. -/
lemma idxFrom_extract (m : List CharacterInfos) (base n : Nat) (h : n < m.length) :
    ((idxFrom base m).drop (6 * n)).take 6 = idxBlock (base + 4 * n) := by
  induction m generalizing base n with
  | nil => simp at h
  | cons i rest ih =>
    cases n with
    | zero =>
      rw [idxFrom]
      simp only [Nat.mul_zero, List.drop_zero, Nat.add_zero]
      rw [List.take_append_of_le_length (by rw [idxBlock_length])]
      simp [idxBlock_length]
    | succ n' =>
      rw [idxFrom, show 6 * (n' + 1) = (idxBlock base).length + 6 * n' by rw [idxBlock_length]; ring,
        List.drop_append, ih (base + 4) n' (by simpa using h)]
      congr 1
      ring

/-- The four vertices of the n-th glyph of a run. -/
lemma quadsFrom_extract (m : List CharacterInfos) (t : ℚ) (n : Nat) (h : n < m.length) :
    ((quadsFrom t m).drop (4 * n)).take 4 =
      quadVertices (m.get ⟨n, h⟩) (penAt t m n + (m.get ⟨n, h⟩).left_padding) := by
  induction m generalizing t n with
  | nil => simp at h
  | cons i rest ih =>
    cases n with
    | zero =>
      rw [quadsFrom]
      simp only [Nat.mul_zero, List.drop_zero]
      rw [List.take_append_of_le_length (by rw [quadVertices_length])]
      simp [quadVertices_length, penAt, List.get]
    | succ n' =>
      rw [quadsFrom,
        show 4 * (n' + 1) = (quadVertices i (t + i.left_padding)).length + 4 * n' by
          rw [quadVertices_length]; ring,
        List.drop_append, ih _ n' (by simpa using h)]
      rfl

/-- C3 (code bug evidence): on an atlas without the letter a, set_text of the
one-letter string a leaves is_empty true, as the claim states, but the guard
of line 327 applies bitwise NOT to the vertex count before comparing with 0,
so it is always true and both buffers are allocated (holding empty data)
instead of staying None. -/
theorem c3_all_absent_buffers_allocated :
    (setText (fun l => l) sampleDisplay ['a']).is_empty = true ∧
    (setText (fun l => l) sampleDisplay ['a']).vertex_buffer = some [] ∧
    (setText (fun l => l) sampleDisplay ['a']).index_buffer = some [] := by
  decide

/-- C5: the total text width returned by get_width equals the in-order sum of
left_padding + size.width + right_padding over the characters found in the
atlas, and a character absent from the atlas leaves the whole loop state (in
particular the pen position) unchanged. -/
theorem c5_total_width_sum (nfc : List Char → List Char) (display : TextDisplay)
    (text : List Char) (hnfc : nfc [] = []) :
    get_width (setText nfc display text) =
      ((matchedInfos display.texture.character_infos (nfc text)).map
        fun i => i.left_padding + i.size.1 + i.right_padding).sum ∧
    ∀ acc c, (display.texture.character_infos.find? fun p => p.1 == c) = none →
      setTextStep display.texture.character_infos acc c = acc := by
  constructor
  · by_cases h : text.length = 0
    · have ht : text = [] := List.length_eq_zero.mp h
      subst ht
      simp [setText, get_width, hnfc, matchedInfos]
    · rw [setText_spec _ _ _ h]
      simp only [get_width]
      rw [advanceFrom_eq]
      ring
  · intro acc c hf
    rw [setTextStep, hf]

/-- C6: after set_text, is_empty holds iff the source string is empty or
every character of the normalized string misses the atlas's character map. -/
theorem c6_is_empty_iff (nfc : List Char → List Char) (display : TextDisplay)
    (text : List Char) :
    (setText nfc display text).is_empty = true ↔
      text = [] ∨ ∀ c ∈ nfc text,
        (display.texture.character_infos.find? fun p => p.1 == c) = none := by
  by_cases h : text.length = 0
  · have ht : text = [] := List.length_eq_zero.mp h
    subst ht
    simp [setText]
  · rw [setText_spec _ _ _ h]
    have ht : text ≠ [] := fun hh => h (by rw [hh]; rfl)
    simp only [List.isEmpty_eq_true, ht, false_or]
    rw [matchedInfos, List.filterMap_eq_nil_iff]
    constructor
    · intro hall c hc
      have := hall c hc
      rwa [Option.map_eq_none'] at this
    · intro hall c hc
      rw [hall c hc]
      rfl

/-- C8: draw returns the target unchanged (no draw call issued) whenever the
mesh is flagged empty or either buffer is absent. -/
theorem c8_draw_noop (text : TextDisplay) (target : List DrawParams) (matrix : Mat4)
    (color : ℚ × ℚ × ℚ × ℚ)
    (h : text.is_empty = true ∨ text.vertex_buffer = none ∨ text.index_buffer = none) :
    draw text target matrix color = target := by
  rw [draw, if_pos]
  rcases h with h | h | h <;> simp [h]

/-- Witness for c8_draw_noop at a concrete empty mesh. -/
theorem c8_draw_noop_witness :
    draw ⟨sampleTexture, some [], some [], 0, true⟩ []
      ((0, 0, 0, 0), (0, 0, 0, 0), (0, 0, 0, 0), (0, 0, 0, 0)) (0, 0, 0, 0) = [] :=
  c8_draw_noop _ _ _ _ (Or.inl rfl)

/-- Witness for c5_total_width_sum on a concrete two-character string. -/
theorem c5_total_width_sum_witness :
    get_width (setText (fun l => l) sampleDisplay ['b', 'b']) = 2 := by
  have h := (c5_total_width_sum (fun l => l) sampleDisplay ['b', 'b'] rfl).1
  rw [h]
  norm_num [matchedInfos, sampleDisplay, sampleTexture, sampleInfos, List.find?,
    List.filterMap_cons, beq_self_eq_true]

/-- C10: the six indices of the n-th matched glyph are 4n, 4n+1, 4n+2, 4n+2,
4n+1, 4n+3 truncated to 16 bits, they equal the untruncated values iff
4n+3 < 65536, and that bound means at most 16384 matched glyphs. -/
theorem c10_index_truncation (nfc : List Char → List Char) (display : TextDisplay)
    (text : List Char) (n : Nat) (htext : text.length ≠ 0)
    (hn : n < (matchedInfos display.texture.character_infos (nfc text)).length) :
    (((setText nfc display text).index_buffer.getD []).drop (6 * n)).take 6 =
      [4 * n % 65536, (4 * n + 1) % 65536, (4 * n + 2) % 65536,
       (4 * n + 2) % 65536, (4 * n + 1) % 65536, (4 * n + 3) % 65536] ∧
    ((((setText nfc display text).index_buffer.getD []).drop (6 * n)).take 6 =
      [4 * n, 4 * n + 1, 4 * n + 2, 4 * n + 2, 4 * n + 1, 4 * n + 3] ↔ 4 * n + 3 < 65536) ∧
    (4 * n + 3 < 65536 ↔ n < 16384) := by
  rw [setText_spec _ _ _ htext]
  simp only [Option.getD_some]
  rw [idxFrom_extract _ 0 n hn, Nat.zero_add]
  have hb : idxBlock (4 * n) =
      [4 * n % 65536, (4 * n + 1) % 65536, (4 * n + 2) % 65536,
       (4 * n + 2) % 65536, (4 * n + 1) % 65536, (4 * n + 3) % 65536] := by
    simp [idxBlock, Nat.mod_add_mod]
  rw [hb]
  refine ⟨rfl, ?_, by omega⟩
  constructor
  · intro heq
    simp only [List.cons.injEq, and_true] at heq
    omega
  · intro hlt
    have e0 : 4 * n % 65536 = 4 * n := Nat.mod_eq_of_lt (by omega)
    have e1 : (4 * n + 1) % 65536 = 4 * n + 1 := Nat.mod_eq_of_lt (by omega)
    have e2 : (4 * n + 2) % 65536 = 4 * n + 2 := Nat.mod_eq_of_lt (by omega)
    have e3 : (4 * n + 3) % 65536 = 4 * n + 3 := Nat.mod_eq_of_lt (by omega)
    rw [e0, e1, e2, e3]

/-- Witness for c10_index_truncation: first glyph of a one-letter string. -/
theorem c10_index_truncation_witness :
    (((setText (fun l => l) sampleDisplay ['b']).index_buffer.getD []).drop 0).take 6 =
      [0, 1, 2, 2, 1, 3] := by
  have h := (c10_index_truncation (fun l => l) sampleDisplay ['b'] 0 (by decide) (by decide)).1
  simpa using h

/-- C7 (amended): for the n-th matched glyph, set_text appends exactly the
four vertices top-left, top-right, bottom-left, bottom-right with their
positions and texture coordinates, and, provided 4n+3 < 65536 (at most 16384
matched glyphs), six indices forming the triangles (top-left, top-right,
bottom-left) and (bottom-left, top-right, bottom-right) over that glyph's own
vertices; beyond that the index values wrap modulo 2^16. -/
theorem c7_quad_structure (nfc : List Char → List Char) (display : TextDisplay)
    (text : List Char) (m : List CharacterInfos) (n : Nat) (htext : text.length ≠ 0)
    (hm : m = matchedInfos display.texture.character_infos (nfc text))
    (hn : n < m.length) (h16 : 4 * n + 3 < 65536) :
    ((setText nfc display text).vertex_buffer.getD []).length = 4 * m.length ∧
    ((setText nfc display text).index_buffer.getD []).length = 6 * m.length ∧
    (((setText nfc display text).vertex_buffer.getD []).drop (4 * n)).take 4 =
      quadVertices (m.get ⟨n, hn⟩) (penAt 0 m n + (m.get ⟨n, hn⟩).left_padding) ∧
    (((setText nfc display text).index_buffer.getD []).drop (6 * n)).take 6 =
      [4 * n, 4 * n + 1, 4 * n + 2, 4 * n + 2, 4 * n + 1, 4 * n + 3] := by
  subst hm
  rw [setText_spec _ _ _ htext]
  simp only [Option.getD_some]
  refine ⟨quadsFrom_length 0 _, idxFrom_length 0 _, quadsFrom_extract _ 0 n hn, ?_⟩
  rw [idxFrom_extract _ 0 n hn, Nat.zero_add]
  have e0 : 4 * n % 65536 = 4 * n := Nat.mod_eq_of_lt (by omega)
  simp [idxBlock, e0, Nat.mod_eq_of_lt, show 4 * n + 1 < 65536 by omega,
    show 4 * n + 2 < 65536 by omega, show 4 * n + 3 < 65536 by omega]

/-- Witness for c7_quad_structure: first glyph of a one-letter string. -/
theorem c7_quad_structure_witness :
    (((setText (fun l => l) sampleDisplay ['b']).vertex_buffer.getD []).drop 0).take 4 =
      quadVertices sampleInfos 0 := by
  have h := (c7_quad_structure (fun l => l) sampleDisplay ['b'] _ 0 (by decide) rfl
    (by decide) (by decide)).2.2.1
  refine h.trans ?_
  norm_num [matchedInfos, sampleDisplay, sampleTexture, sampleInfos, List.find?, penAt,
    List.filterMap_cons, beq_self_eq_true]

/-- Matching a replicated string against sampleTexture yields replicated
metrics. -/
lemma matchedInfos_replicate (k : Nat) :
    matchedInfos sampleTexture.character_infos (List.replicate k 'b') =
      List.replicate k sampleInfos := by
  induction k with
  | zero => rfl
  | succ k ih =>
    rw [List.replicate_succ, matchedInfos, List.filterMap_cons]
    have hf : (sampleTexture.character_infos.find? fun p => p.1 == 'b') =
        some ('b', sampleInfos) := rfl
    rw [hf, List.replicate_succ]
    simp only [Option.map_some']
    congr 1

/-- C7 counterexample: on a string with 16385 matched glyphs, the six indices
emitted for glyph number 16384 wrap around to 0, 1, 2, 2, 1, 3 instead of
referencing that glyph's own vertices 65536..65539, so the two triangles do
not consist of that glyph's corners. -/
theorem c7_counterexample :
    (setText (fun l => l) sampleDisplay repText).index_buffer.isSome = true ∧
    (((setText (fun l => l) sampleDisplay repText).index_buffer.getD []).drop (6 * 16384)).take 6
      = [0, 1, 2, 2, 1, 3] ∧
    (((setText (fun l => l) sampleDisplay repText).index_buffer.getD []).drop (6 * 16384)).take 6
      ≠ [4 * 16384, 4 * 16384 + 1, 4 * 16384 + 2,
         4 * 16384 + 2, 4 * 16384 + 1, 4 * 16384 + 3] := by
  have hlen : repText.length ≠ 0 := by rw [repText, List.length_replicate]; omega
  rw [setText_spec _ _ _ hlen]
  have hm : matchedInfos sampleDisplay.texture.character_infos ((fun l => l) repText) =
      List.replicate 16385 sampleInfos := matchedInfos_replicate 16385
  simp only [Option.getD_some, Option.isSome_some, hm, true_and]
  rw [idxFrom_extract _ 0 16384 (by rw [List.length_replicate]; omega)]
  norm_num [idxBlock]

lemma foldl_set_length {α : Type} (l : List Nat) (pos : Nat → Nat) (val : Nat → α)
    (d : List α) :
    (l.foldl (fun acc x => acc.set (pos x) (val x)) d).length = d.length := by
  induction l generalizing d with
  | nil => rfl
  | cons x xs ih => rw [List.foldl_cons, ih, List.length_set]

/-- Writing a glyph's pixels never changes the buffer's length. -/
lemma writeGlyph_length (texW : Nat) (g : Glyph) (start : Nat) (data : List ℚ) :
    (writeGlyph texW g start data).length = data.length := by
  rw [writeGlyph]
  generalize List.range g.rows = ys
  induction ys generalizing data with
  | nil => rfl
  | cons y ys ih =>
    rw [List.foldl_cons, ih, foldl_set_length]

lemma growRows_cursor (texW : Nat) (st : PackState) (g : Glyph) :
    (growRows texW st g).cursor = st.cursor := by
  rw [growRows]; split <;> rfl

lemma growRows_infos (texW : Nat) (st : PackState) (g : Glyph) :
    (growRows texW st g).infos = st.infos := by
  rw [growRows]; split <;> rfl

lemma growRows_rows_to_skip (texW : Nat) (st : PackState) (g : Glyph) :
    (growRows texW st g).rows_to_skip = max st.rows_to_skip g.rows := by
  rw [growRows]
  split
  · next hlt => exact (Nat.max_eq_right (Nat.le_of_lt hlt)).symm
  · next hge => exact (Nat.max_eq_left (Nat.le_of_not_lt hge)).symm

lemma growRows_zero_rows (texW : Nat) (st : PackState) (g : Glyph) (h : g.rows = 0) :
    growRows texW st g = st := by
  rw [growRows, if_neg]
  omega

lemma growRows_length (texW : Nat) (st : PackState) (g : Glyph) :
    (growRows texW st g).texture_data.length =
      st.texture_data.length + (g.rows - st.rows_to_skip) * texW := by
  rw [growRows]
  split
  · next hlt => simp [List.length_append]
  · next hge => simp; omega

/-- Components of a successful copy step. -/
lemma copyGlyph_some {texW : Nat} {st : PackState} {g : Glyph} {st2 : PackState}
    (h : copyGlyph texW st g = some st2) :
    st2.cursor.1 = st.cursor.1 + (if 1 ≤ g.rows then g.width else 0) ∧
    st2.cursor.2 = st.cursor.2 ∧
    st2.rows_to_skip = st.rows_to_skip ∧
    st2.infos = st.infos ∧
    st2.texture_data.length = st.texture_data.length ∧
    (g.rows = 0 → st2.texture_data = st.texture_data) := by
  simp only [copyGlyph] at h
  split at h
  · next hrows =>
    split at h
    · next hbound =>
      rw [Option.some.injEq] at h
      subst h
      refine ⟨by rw [if_pos hrows], rfl, rfl, rfl, writeGlyph_length _ _ _ _, ?_⟩
      intro h0; omega
    · exact Option.noConfusion h
  · next hrows =>
    rw [Option.some.injEq] at h
    subst h
    exact ⟨by rw [if_neg hrows, Nat.add_zero], rfl, rfl, rfl, rfl, fun _ => rfl⟩

/-- Behaviour of the post-carriage-return part of one packing step (shelf
growth, copy, metrics recording), for an arbitrary entry state. -/
lemma processGlyph_stage2 {texW : Nat} {st1 : PackState} {c : Char} {g : Glyph}
    {st' : PackState}
    (h : ((copyGlyph texW (growRows texW st1 g) g).map fun st3 =>
      { st3 with infos := st3.infos ++
        [(c, glyphInfos g (growRows texW st1 g).cursor.1 st3.cursor.2)] }) = some st') :
    st'.infos = st1.infos ++ [(c, glyphInfos g st1.cursor.1 st1.cursor.2)] ∧
    st'.cursor.2 = st1.cursor.2 ∧
    st'.cursor.1 = st1.cursor.1 + (if 1 ≤ g.rows then g.width else 0) ∧
    st'.rows_to_skip = max st1.rows_to_skip g.rows ∧
    (g.rows = 0 → st'.texture_data = st1.texture_data) := by
  cases hcopy : copyGlyph texW (growRows texW st1 g) g with
  | none => rw [hcopy] at h; exact Option.noConfusion h
  | some st3 =>
    rw [hcopy, Option.map_some', Option.some.injEq] at h
    subst h
    obtain ⟨hc1, hc2, hcr3, hci, _, hcd⟩ := copyGlyph_some hcopy
    rw [growRows_cursor] at hc1 hc2
    rw [growRows_rows_to_skip] at hcr3
    rw [growRows_infos] at hci
    refine ⟨?_, ?_, ?_, ?_, ?_⟩
    · simp only [hci, growRows_cursor, hc2]
    · exact hc2
    · exact hc1
    · exact hcr3
    · intro h0
      rw [hcd h0, growRows_zero_rows _ _ _ h0]

/-- Complete characterization of one successful packing step: where the
metrics entry is recorded and how the cursor, the shelf height and the
buffer evolve, as a function of whether the carriage-return condition
cursor.x + width >= texture_width fired. -/
lemma processGlyph_spec {texW : Nat} {st : PackState} {c : Char} {g : Glyph}
    {st' : PackState} (h : processGlyph texW st c g = some st') :
    st'.infos = st.infos ++
      [(c, glyphInfos g (if texW ≤ st.cursor.1 + g.width then 0 else st.cursor.1)
        (if texW ≤ st.cursor.1 + g.width then st.cursor.2 + st.rows_to_skip
         else st.cursor.2))] ∧
    st'.cursor.2 = (if texW ≤ st.cursor.1 + g.width then st.cursor.2 + st.rows_to_skip
      else st.cursor.2) ∧
    st'.cursor.1 = (if texW ≤ st.cursor.1 + g.width then 0 else st.cursor.1) +
      (if 1 ≤ g.rows then g.width else 0) ∧
    st'.rows_to_skip =
      max (if texW ≤ st.cursor.1 + g.width then 0 else st.rows_to_skip) g.rows ∧
    (g.rows = 0 → st'.texture_data = st.texture_data) := by
  rw [processGlyph, carriageReturn] at h
  split at h
  · next hcr =>
    split at h
    · next hw =>
      rw [Option.some_bind] at h
      obtain ⟨h1, h2, h3, h4, h5⟩ := processGlyph_stage2 h
      simp only [if_pos hcr]
      exact ⟨h1, h2, h3, h4, h5⟩
    · rw [Option.none_bind] at h
      exact Option.noConfusion h
  · next hcr =>
    rw [Option.some_bind] at h
    obtain ⟨h1, h2, h3, h4, h5⟩ := processGlyph_stage2 h
    simp only [if_neg hcr]
    exact ⟨h1, h2, h3, h4, h5⟩

/-- C2 (amended): a successfully processed glyph wraps to a new shelf — it is
recorded at x = 0 with y advanced by rows_to_skip and the shelf restarts —
exactly when cursor.x + glyph.width >= atlas_width; it stays on the current
shelf at the cursor exactly when cursor.x + glyph.width < atlas_width.  In
particular a glyph that exactly fills the remaining row width wraps, against
the claim's strict inequality. -/
theorem c2_wrap_condition (texW : Nat) (st : PackState) (c : Char) (g : Glyph)
    (st' : PackState) (h : processGlyph texW st c g = some st') :
    (texW ≤ st.cursor.1 + g.width →
      st'.infos = st.infos ++ [(c, glyphInfos g 0 (st.cursor.2 + st.rows_to_skip))] ∧
      st'.cursor.2 = st.cursor.2 + st.rows_to_skip ∧
      st'.rows_to_skip = g.rows) ∧
    (st.cursor.1 + g.width < texW →
      st'.infos = st.infos ++ [(c, glyphInfos g st.cursor.1 st.cursor.2)] ∧
      st'.cursor.2 = st.cursor.2 ∧
      st'.rows_to_skip = max st.rows_to_skip g.rows) := by
  obtain ⟨h1, h2, _, h4, _⟩ := processGlyph_spec h
  constructor
  · intro hcr
    simp only [if_pos hcr] at h1 h2 h4
    rw [Nat.max_eq_right (Nat.zero_le _)] at h4
    exact ⟨h1, h2, h4⟩
  · intro hlt
    have hcr : ¬ texW ≤ st.cursor.1 + g.width := by omega
    simp only [if_neg hcr] at h1 h2 h4
    exact ⟨h1, h2, h4⟩

/-- Witness for c2_wrap_condition: a concrete non-wrapping step. -/
theorem c2_wrap_condition_witness :
    stNoRows.infos = initPackState.infos ++ [('b', glyphInfos gNoRows 0 0)] ∧
    stNoRows.cursor.2 = initPackState.cursor.2 := by
  have h := (c2_wrap_condition 2 initPackState 'b' gNoRows stNoRows rfl).2 (by decide)
  exact ⟨h.1, h.2.1⟩

/-- C2 counterexample: with atlas width 2, after the first one-pixel glyph
the cursor is at x = 1, and for the second glyph x + width = 2 equals the
atlas width, so the claim's strict condition does not fire; yet the glyph is
recorded at (0, 1) — it wrapped to a new shelf — instead of at (1, 0) on the
current shelf as the claim requires. -/
theorem c2_counterexample :
    ((packChars cexWideRaster 2 ['a', 'b'] initPackState).map fun st =>
      st.infos.map fun p => p.2.coords) = some [(0, 0), (0, 1)] ∧
    ¬ ((1 : Nat) + 1 > 2) := by
  constructor
  · decide
  · omega

/-- C9 (amended): a glyph whose bitmap has zero rows still gets a metrics
entry, with size (width, 0) and origin at the (post-carriage-return) cursor;
no pixel is copied and the cursor's x position is not advanced; and the
immediately following glyph, provided it does not itself trigger a
carriage-return wrap, is recorded with the same x origin. -/
theorem c9_zero_rows (texW : Nat) (st : PackState) (c : Char) (g : Glyph)
    (st' : PackState) (hr : g.rows = 0) (h : processGlyph texW st c g = some st') :
    st'.texture_data = st.texture_data ∧
    st'.cursor.1 = (if texW ≤ st.cursor.1 + g.width then 0 else st.cursor.1) ∧
    st'.infos = st.infos ++ [(c, glyphInfos g st'.cursor.1 st'.cursor.2)] ∧
    (glyphInfos g st'.cursor.1 st'.cursor.2).size = ((g.width : ℚ), 0) ∧
    (∀ c2 g2 st'', processGlyph texW st' c2 g2 = some st'' →
      st'.cursor.1 + g2.width < texW →
      st''.infos = st'.infos ++ [(c2, glyphInfos g2 st'.cursor.1 st'.cursor.2)]) := by
  obtain ⟨h1, h2, h3, _, h5⟩ := processGlyph_spec h
  have hrows : ¬ (1 ≤ g.rows) := by omega
  rw [if_neg hrows, Nat.add_zero] at h3
  refine ⟨h5 hr, h3, ?_, ?_, ?_⟩
  · rw [h1, h3, h2]
  · rw [glyphInfos, hr]
    simp
  · intro c2 g2 st'' h'' hlt
    obtain ⟨k1, _, _, _, _⟩ := processGlyph_spec h''
    have hcr2 : ¬ (texW ≤ st'.cursor.1 + g2.width) := by omega
    simp only [if_neg hcr2] at k1
    exact k1

/-- Witness for c9_zero_rows: processing the zero-row glyph gNoRows from the
initial state records it at the cursor and copies nothing. -/
theorem c9_zero_rows_witness :
    stNoRows.texture_data = initPackState.texture_data ∧
    stNoRows.infos = initPackState.infos ++
      [('b', glyphInfos gNoRows stNoRows.cursor.1 stNoRows.cursor.2)] := by
  have h := c9_zero_rows 2 initPackState 'b' gNoRows stNoRows rfl rfl
  exact ⟨h.1, h.2.2.1⟩

/-- C9 counterexample: with atlas width 2, the zero-row glyph b is recorded
at x = 1 (after glyph a advanced the cursor), but the immediately following
glyph c triggers a carriage return and is recorded at x = 0, not with the
same x origin as the claim's final consequence states.  The mapped triples
are (size.height, origin.x) per recorded glyph. -/
theorem c9_counterexample :
    ((packChars cexMixedRaster 2 ['a', 'b', 'c'] initPackState).map fun st =>
      st.infos.map fun p => (p.2.size.2, p.2.coords.1)) =
      some [(1, 0), (0, 1), (1, 0)] := by
  decide

/-- The carriage-return step succeeds for any glyph no wider than the
texture, preserves the invariant and leaves x + width within the texture. -/
lemma carriageReturn_success {texW : Nat} {st : PackState} {g : Glyph}
    (hw : g.width ≤ texW) (hinv : LenInv texW st) :
    ∃ st1, carriageReturn texW st g = some st1 ∧ LenInv texW st1 ∧
      st1.cursor.1 + g.width ≤ texW ∧
      st1.texture_data = st.texture_data ∧
      st1.cursor.2 + st1.rows_to_skip = st.cursor.2 + st.rows_to_skip := by
  by_cases hcr : texW ≤ st.cursor.1 + g.width
  · rw [carriageReturn, if_pos hcr, if_pos hw]
    refine ⟨_, rfl, ⟨?_, Nat.zero_le _⟩, ?_, rfl, ?_⟩
    · simpa using hinv.1
    · simpa using hw
    · simp
  · rw [carriageReturn, if_neg hcr]
    exact ⟨st, rfl, hinv, by omega, rfl, rfl⟩

/-- The buffer-growing step preserves the invariant and reserves at least the
glyph's rows on the current shelf. -/
lemma growRows_inv {texW : Nat} {st : PackState} {g : Glyph} (hinv : LenInv texW st) :
    LenInv texW (growRows texW st g) ∧ g.rows ≤ (growRows texW st g).rows_to_skip := by
  have hc := growRows_cursor texW st g
  have hr := growRows_rows_to_skip texW st g
  have hl := growRows_length texW st g
  refine ⟨⟨?_, ?_⟩, ?_⟩
  · rw [hl, hc, hr, hinv.1, ← Nat.add_mul]
    congr 1
    omega
  · rw [hc]; exact hinv.2
  · rw [hr]; exact Nat.le_max_right _ _

/-- The copy step succeeds whenever the invariant holds, the reserved shelf
covers the glyph and the cursor plus width stays within the texture. -/
lemma copyGlyph_success {texW : Nat} {st : PackState} {g : Glyph}
    (hinv : LenInv texW st) (hrts : g.rows ≤ st.rows_to_skip)
    (hxw : st.cursor.1 + g.width ≤ texW) :
    ∃ st2, copyGlyph texW st g = some st2 := by
  rw [copyGlyph]
  split
  · next hrows =>
    rw [if_pos]
    · exact ⟨_, rfl⟩
    · rw [hinv.1]
      rcases Nat.exists_eq_add_of_le hrows with ⟨r, hr⟩
      rw [hr]
      simp only [Nat.add_sub_cancel_left, Nat.add_mul, Nat.one_mul]
      have h1 : g.rows * texW ≤ st.rows_to_skip * texW := Nat.mul_le_mul_right _ hrts
      rw [hr, Nat.add_mul, Nat.one_mul] at h1
      generalize st.cursor.2 * texW = A at *
      generalize r * texW = B at *
      generalize st.rows_to_skip * texW = C at *
      omega
  · exact ⟨st, rfl⟩

/-- One packing step succeeds for any glyph no wider than the texture; the
invariant is preserved, the buffer only grows, the covered shelf height grows
by at most the glyph's rows, and a glyph with at least one row forces the
buffer to hold at least one full row. -/
lemma processGlyph_success (texW : Nat) (st : PackState) (c : Char) (g : Glyph)
    (hinv : LenInv texW st) (hw : g.width ≤ texW) :
    ∃ st', processGlyph texW st c g = some st' ∧ LenInv texW st' ∧
      st.texture_data.length ≤ st'.texture_data.length ∧
      st'.cursor.2 + st'.rows_to_skip ≤ st.cursor.2 + st.rows_to_skip + g.rows ∧
      (1 ≤ g.rows → texW ≤ st'.texture_data.length) := by
  obtain ⟨st1, hcr, hinv1, hxw1, hd1, hh1⟩ := carriageReturn_success hw hinv
  obtain ⟨hinv2, hrts2⟩ := growRows_inv (g := g) hinv1
  have hgc := growRows_cursor texW st1 g
  obtain ⟨st3, hcopy⟩ := copyGlyph_success hinv2 hrts2 (by rw [hgc]; exact hxw1)
  obtain ⟨hc1, hc2', hcr3, _, hclen, _⟩ := copyGlyph_some hcopy
  refine ⟨{ st3 with infos := st3.infos ++
      [(c, glyphInfos g (growRows texW st1 g).cursor.1 st3.cursor.2)] }, ?_, ?_, ?_, ?_, ?_⟩
  · simp only [processGlyph, hcr, Option.some_bind, hcopy, Option.map_some']
  · constructor
    · show st3.texture_data.length = (st3.cursor.2 + st3.rows_to_skip) * texW
      rw [hclen, hc2', hcr3]
      exact hinv2.1
    · show st3.cursor.1 ≤ texW
      rw [hc1, hgc]
      rcases le_or_lt 1 g.rows with hr | hr
      · rw [if_pos hr]
        omega
      · rw [if_neg (by omega)]
        exact hinv1.2
  · show st.texture_data.length ≤ st3.texture_data.length
    calc st.texture_data.length = st1.texture_data.length := by rw [hd1]
    _ ≤ (growRows texW st1 g).texture_data.length := by rw [growRows_length]; omega
    _ = st3.texture_data.length := hclen.symm
  · show st3.cursor.2 + st3.rows_to_skip ≤ st.cursor.2 + st.rows_to_skip + g.rows
    rw [hc2', hcr3, hgc, growRows_rows_to_skip]
    omega
  · intro hr
    show texW ≤ st3.texture_data.length
    rw [hclen, hinv2.1]
    have h1 : 1 ≤ (growRows texW st1 g).rows_to_skip := Nat.le_trans hr hrts2
    have h2 : 1 * texW ≤ ((growRows texW st1 g).cursor.2 +
        (growRows texW st1 g).rows_to_skip) * texW :=
      Nat.mul_le_mul_right _ (by omega)
    omega

/-- The whole packing loop succeeds when every loadable glyph is no wider
than the texture; the invariant holds at the end, the covered height is
bounded by the sum of all glyph rows, and one loadable glyph with at least
one row forces a buffer of at least one full texture row. -/
lemma packChars_success (raster : Char → Option Glyph) (texW : Nat) (chars : List Char)
    (st : PackState) (hinv : LenInv texW st)
    (hw : ∀ c ∈ chars, ∀ g, raster c = some g → g.width ≤ texW) :
    ∃ st', packChars raster texW chars st = some st' ∧ LenInv texW st' ∧
      st.texture_data.length ≤ st'.texture_data.length ∧
      st'.cursor.2 + st'.rows_to_skip ≤ st.cursor.2 + st.rows_to_skip +
        (chars.map fun c => ((raster c).map Glyph.rows).getD 0).sum ∧
      ((∃ c ∈ chars, ∃ g, raster c = some g ∧ 1 ≤ g.rows) →
        texW ≤ st'.texture_data.length) := by
  induction chars generalizing st with
  | nil =>
    refine ⟨st, rfl, hinv, Nat.le_refl _, by simp, ?_⟩
    rintro ⟨c, hc, -⟩
    exact absurd hc (List.not_mem_nil c)
  | cons c rest ih =>
    cases hrc : raster c with
    | none =>
      have hstep : packChars raster texW (c :: rest) st = packChars raster texW rest st := by
        rw [packChars, packChar, hrc, Option.some_bind]
      obtain ⟨st', hrun, hinv', hlen, hheight, hrow⟩ :=
        ih st hinv (fun c2 hc2 => hw c2 (List.mem_cons_of_mem _ hc2))
      refine ⟨st', by rw [hstep, hrun], hinv', hlen, ?_, ?_⟩
      · simpa [hrc] using hheight
      · rintro ⟨c2, hc2, g2, hg2, hr2⟩
        rcases List.mem_cons.mp hc2 with hc2 | hc2
        · subst hc2; rw [hrc] at hg2; exact Option.noConfusion hg2
        · exact hrow ⟨c2, hc2, g2, hg2, hr2⟩
    | some g =>
      have hwg : g.width ≤ texW := hw c (List.mem_cons_self c rest) g hrc
      obtain ⟨st1, hpg, hinv1, hlen1, hheight1, hrow1⟩ :=
        processGlyph_success texW st c g hinv hwg
      obtain ⟨st', hrun, hinv', hlen, hheight, hrow⟩ :=
        ih st1 hinv1 (fun c2 hc2 => hw c2 (List.mem_cons_of_mem _ hc2))
      have hstep : packChars raster texW (c :: rest) st = packChars raster texW rest st1 := by
        simp only [packChars, packChar, hrc, hpg, Option.some_bind]
      refine ⟨st', by rw [hstep, hrun], hinv', Nat.le_trans hlen1 hlen, ?_, ?_⟩
      · simp only [List.map_cons, List.sum_cons, hrc, Option.map_some', Option.getD_some]
        omega
      · rintro ⟨c2, hc2, g2, hg2, hr2⟩
        rcases List.mem_cons.mp hc2 with hc2 | hc2
        · subst hc2
          rw [hrc, Option.some.injEq] at hg2
          subst hg2
          exact Nat.le_trans (hrow1 hr2) hlen
        · exact hrow ⟨c2, hc2, g2, hg2, hr2⟩

/-- C1 (amended): for a positive pixel size, when the width-heuristic
product chars * font_size * font_size fits in u32, the heuristic's value is
at most 2^31 (so the u32 increment inside get_nearest_po2 cannot overflow),
every glyph that loads is no wider than the computed atlas width, at least
one loaded glyph has a nonzero number of bitmap rows, and the total glyph
rows times the atlas width is at most 2^31 (so the height-side u32
arithmetic cannot overflow), atlas construction succeeds and both dimensions
of the returned atlas are powers of two.  (Without the extra premises the
code panics: see the counterexample.) -/
theorem c1_atlas_po2 (raster : Char → Option Glyph) (chars : List Char)
    (font_size : Nat) (texW : Nat)
    (hfs : 0 < font_size)
    (hprod : chars.length * font_size * font_size < 2 ^ 32)
    (hM : max (font_size * 2 % 2 ^ 32)
      (Nat.sqrt (chars.length % 2 ^ 32 * font_size % 2 ^ 32 * font_size % 2 ^ 32)) ≤ 2 ^ 31)
    (htexW : get_nearest_po2
      (max (font_size * 2 % 2 ^ 32)
        (Nat.sqrt (chars.length % 2 ^ 32 * font_size % 2 ^ 32 * font_size % 2 ^ 32)))
      = some texW)
    (hw : ∀ c ∈ chars, ∀ g, raster c = some g → g.width ≤ texW)
    (hrows : ∃ c ∈ chars, ∃ g, raster c = some g ∧ 1 ≤ g.rows)
    (hfit : (chars.map fun c => ((raster c).map Glyph.rows).getD 0).sum * texW ≤ 2 ^ 31) :
    ∃ fi, build_font_image raster chars font_size = some fi ∧
      (∃ k, fi.dims.1 = 2 ^ k) ∧ (∃ j, fi.dims.2 = 2 ^ j) := by
  obtain ⟨⟨k, hk⟩, -, -⟩ := get_nearest_po2_spec hM htexW
  have htpos : 0 < texW := by rw [hk]; positivity
  have hinv0 : LenInv texW initPackState := ⟨by simp [initPackState], by simp [initPackState]⟩
  obtain ⟨st', hrun, hinv', hlen, hheight, hrowlen⟩ :=
    packChars_success raster texW chars initPackState hinv0 hw
  have hsum0 : st'.cursor.2 + st'.rows_to_skip ≤
      (chars.map fun c => ((raster c).map Glyph.rows).getD 0).sum := by
    have h0 : initPackState.cursor.2 = 0 := rfl
    have h1 : initPackState.rows_to_skip = 0 := rfl
    omega
  have hlen31 : st'.texture_data.length ≤ 2 ^ 31 := by
    rw [hinv'.1]
    calc (st'.cursor.2 + st'.rows_to_skip) * texW
        ≤ (chars.map fun c => ((raster c).map Glyph.rows).getD 0).sum * texW :=
          Nat.mul_le_mul_right _ hsum0
    _ ≤ 2 ^ 31 := hfit
  have hmodlen : st'.texture_data.length % 2 ^ 32 = st'.texture_data.length := by
    apply Nat.mod_eq_of_lt
    have h4 : (2 : Nat) ^ 31 < 2 ^ 32 := by norm_num
    omega
  obtain ⟨ch, hch_eq⟩ : ∃ v, st'.texture_data.length % 2 ^ 32 / texW = v := ⟨_, rfl⟩
  have hch : ch = st'.cursor.2 + st'.rows_to_skip := by
    rw [← hch_eq, hmodlen, hinv'.1, Nat.mul_div_cancel _ htpos]
  have hch1 : 1 ≤ ch := by
    rw [← hch_eq, hmodlen]
    exact (Nat.one_le_div_iff htpos).mpr (hrowlen hrows)
  have hS2 : (chars.map fun c => ((raster c).map Glyph.rows).getD 0).sum ≤ 2 ^ 31 := by
    refine Nat.le_trans ?_ hfit
    calc (chars.map fun c => ((raster c).map Glyph.rows).getD 0).sum
        = (chars.map fun c => ((raster c).map Glyph.rows).getD 0).sum * 1 :=
          (Nat.mul_one _).symm
    _ ≤ (chars.map fun c => ((raster c).map Glyph.rows).getD 0).sum * texW :=
          Nat.mul_le_mul_left _ htpos
  have hch31 : ch ≤ 2 ^ 31 := by
    rw [hch]
    exact Nat.le_trans hsum0 hS2
  obtain ⟨rh, hrh⟩ := get_nearest_po2_isSome (x := ch) (by omega)
  obtain ⟨⟨j, hj⟩, hgeh, hlth⟩ := get_nearest_po2_spec hch31 hrh
  have hlench : texW * ch = st'.texture_data.length := by
    rw [hch, Nat.mul_comm]
    exact hinv'.1.symm
  have htwrh : texW * rh < 2 ^ 32 := by
    have h1 : texW * (rh + 1) ≤ texW * (2 * ch) := Nat.mul_le_mul_left _ (by omega)
    have h2 : texW * (2 * ch) = 2 * (texW * ch) := by ring
    have h3 : texW * (rh + 1) = texW * rh + texW := by ring
    rw [h2, hlench, h3] at h1
    have h4 : (2 : Nat) ^ 31 < 2 ^ 32 := by norm_num
    revert h1
    generalize texW * rh = A
    intro h1
    omega
  have hrh32 : rh < 2 ^ 32 := by
    have h1 : 1 * rh ≤ texW * rh := Nat.mul_le_mul_right _ htpos
    rw [Nat.one_mul] at h1
    exact Nat.lt_of_le_of_lt h1 htwrh
  have hsub : (rh + 2 ^ 32 - ch) % 2 ^ 32 = rh - ch := by omega
  have hpad : (st'.texture_data ++
      List.replicate (texW * ((rh + 2 ^ 32 - ch) % 2 ^ 32) % 2 ^ 32) 0).length =
      texW * rh := by
    rw [List.length_append, List.length_replicate, hsub]
    have hmul : texW * (rh - ch) % 2 ^ 32 = texW * (rh - ch) := by
      have h1 : texW * (rh - ch) ≤ texW * rh := Nat.mul_le_mul_left _ (Nat.sub_le _ _)
      exact Nat.mod_eq_of_lt (Nat.lt_of_le_of_lt h1 htwrh)
    rw [hmul, ← hlench, ← Nat.mul_add]
    congr 1
    omega
  have hmodpad : (st'.texture_data ++
      List.replicate (texW * ((rh + 2 ^ 32 - ch) % 2 ^ 32) % 2 ^ 32) 0).length % 2 ^ 32 =
      (st'.texture_data ++
      List.replicate (texW * ((rh + 2 ^ 32 - ch) % 2 ^ 32) % 2 ^ 32) 0).length := by
    rw [hpad]
    exact Nat.mod_eq_of_lt htwrh
  have hmod0 : (st'.texture_data ++
      List.replicate (texW * ((rh + 2 ^ 32 - ch) % 2 ^ 32) % 2 ^ 32) 0).length % 2 ^ 32
      % texW = 0 := by
    rw [hmodpad, hpad]
    exact Nat.mul_mod_right _ _
  have hdiv : (st'.texture_data ++
      List.replicate (texW * ((rh + 2 ^ 32 - ch) % 2 ^ 32) % 2 ^ 32) 0).length % 2 ^ 32
      / texW = rh := by
    rw [hmodpad, hpad]
    exact Nat.mul_div_cancel_left _ htpos
  refine ⟨⟨st'.texture_data ++
      List.replicate (texW * ((rh + 2 ^ 32 - ch) % 2 ^ 32) % 2 ^ 32) 0,
      (texW, rh),
      st'.infos.map fun p => (p.1, normalizeInfos texW rh p.2)⟩, ?_, ⟨k, hk⟩, ⟨j, hj⟩⟩
  simp only [build_font_image, htexW, hrun, Option.bind_eq_bind, Option.some_bind]
  rw [if_neg (show ¬ texW = 0 by omega)]
  rw [hch_eq]
  simp only [hrh, Option.some_bind]
  rw [if_neg fun hc => hc hmod0, hdiv]

/-- Witness for c1_atlas_po2: one character, font size 1, a one-pixel glyph;
the build succeeds. -/
theorem c1_atlas_po2_witness :
    (build_font_image cexWideRaster ['a'] 1).isSome = true := by
  obtain ⟨fi, hfi, -, -⟩ := c1_atlas_po2 cexWideRaster ['a'] 1 2
    (by norm_num)
    (by decide)
    (by decide)
    (by decide)
    (by
      intro c hc g hg
      simp only [cexWideRaster, Option.some.injEq] at hg
      subst hg
      decide)
    ⟨'a', List.mem_singleton.mpr rfl, ⟨1, 1, [0], 0, 0, 0⟩, rfl, by decide⟩
    (by decide)
  rw [hfi]
  rfl

/-- C1 counterexample: three fonts, each with one enumerable glyph at a valid
pixel size, on which atlas construction panics instead of succeeding.
First, a glyph whose bitmap has zero rows (a space-only font): the texture
stays empty and get_nearest_po2's assert x > 0 fires on current_height = 0.
Second, a glyph wider than the heuristically chosen atlas width 2: the
assert at line 402 fires.  Third, font size 2^31: the u32 width heuristic
overflows — the wrapped products are all 0 and the assert of get_nearest_po2
fires (a debug build already panics at the multiplication itself). -/
theorem c1_counterexample :
    build_font_image cexNoRowsRaster ['a'] 1 = none ∧
    build_font_image cexOverWideRaster ['a'] 1 = none ∧
    build_font_image cexWideRaster ['a'] (2 ^ 31) = none := by
  refine ⟨by decide, by decide, by decide⟩

/-- A nonempty-rectangle membership forces positive extents. -/
lemma texelIn_pos {px py : ℚ} {i : CharacterInfos} (h : texelIn px py i) :
    0 < i.size.1 ∧ 0 < i.size.2 := by
  obtain ⟨h1, h2, h3, h4⟩ := h
  constructor <;> linarith

/-- Placement is monotone in the cursor's x and in the reserved height. -/
lemma placedOk_mono {cx cy rts cx2 rts2 : Nat} {i : CharacterInfos}
    (hcx : cx ≤ cx2) (hrts : rts ≤ rts2) (h : placedOk cx cy rts i) :
    placedOk cx2 cy rts2 i := by
  rcases h with h | h | h | ⟨ha, hb, hc⟩
  · exact Or.inl h
  · exact Or.inr (Or.inl h)
  · exact Or.inr (Or.inr (Or.inl h))
  · refine Or.inr (Or.inr (Or.inr ⟨ha, ?_, ?_⟩))
    · have : (rts : ℚ) ≤ (rts2 : ℚ) := by exact_mod_cast hrts
      linarith
    · have : (cx : ℚ) ≤ (cx2 : ℚ) := by exact_mod_cast hcx
      linarith

/-- A carriage return closes the current shelf: everything placed before it
is placed for the wrapped cursor. -/
lemma placedOk_wrap {cx cy rts : Nat} {i : CharacterInfos} (h : placedOk cx cy rts i) :
    placedOk 0 (cy + rts) 0 i := by
  rcases h with h | h | h | ⟨ha, hb, hc⟩
  · exact Or.inl h
  · exact Or.inr (Or.inl h)
  · refine Or.inr (Or.inr (Or.inl ?_))
    push_cast
    have : (0 : ℚ) ≤ (rts : ℚ) := by positivity
    linarith
  · refine Or.inr (Or.inr (Or.inl ?_))
    push_cast
    linarith

/-- A rectangle placed for the cursor is disjoint from the rectangle of a
glyph freshly recorded at that cursor. -/
lemma placedOk_disjoint_new {cx1 cy1 rts1 : Nat} {i : CharacterInfos} {g : Glyph}
    (h : placedOk cx1 cy1 rts1 i) :
    RectDisjoint i (glyphInfos g cx1 cy1) := by
  intro px py ⟨hi, he⟩
  obtain ⟨he1, he2, he3, he4⟩ := he
  simp only [glyphInfos] at he1 he2 he3 he4
  rcases h with h | h | h | ⟨ha, hb, hc⟩
  · exact absurd h (by have := (texelIn_pos hi).1; linarith)
  · exact absurd h (by have := (texelIn_pos hi).2; linarith)
  · obtain ⟨hi1, hi2, hi3, hi4⟩ := hi
    linarith
  · obtain ⟨hi1, hi2, hi3, hi4⟩ := hi
    linarith

/-- Core preservation argument, phrased for the post-carriage-return cursor
(cx1, cy1) and shelf height rts1. -/
lemma packInv_core {st st' : PackState} {c : Char} {g : Glyph} {cx1 cy1 rts1 : Nat}
    (h1 : st'.infos = st.infos ++ [(c, glyphInfos g cx1 cy1)])
    (h2 : st'.cursor.2 = cy1)
    (h3 : st'.cursor.1 = cx1 + (if 1 ≤ g.rows then g.width else 0))
    (h4 : st'.rows_to_skip = max rts1 g.rows)
    (hmid : ∀ p ∈ st.infos, placedOk cx1 cy1 rts1 p.2)
    (hpair : st.infos.Pairwise fun a b => RectDisjoint a.2 b.2) :
    PackInv st' := by
  constructor
  · intro p hp
    rw [h1, List.mem_append] at hp
    rcases hp with hp | hp
    · rw [h2, h3, h4]
      exact placedOk_mono (Nat.le_add_right _ _) (Nat.le_max_left _ _) (hmid p hp)
    · rw [List.mem_singleton] at hp
      subst hp
      rcases Nat.eq_zero_or_pos g.width with hw0 | hw0
    
      · refine Or.inl ?_
        simp [glyphInfos, hw0]
      · rcases Nat.eq_zero_or_pos g.rows with hr0 | hr0
        · refine Or.inr (Or.inl ?_)
          simp [glyphInfos, hr0]
        · have hr1 : 1 ≤ g.rows := hr0
          refine Or.inr (Or.inr (Or.inr ⟨?_, ?_, ?_⟩))
          · simp [glyphInfos, h2]
          · simp only [glyphInfos, h2, h4]
            have hmx : (g.rows : ℚ) ≤ ((max rts1 g.rows : Nat) : ℚ) := by
              exact_mod_cast Nat.le_max_right rts1 g.rows
            push_cast at hmx ⊢
            linarith
          · simp only [glyphInfos, h3, if_pos hr1]
            push_cast
            linarith
  · rw [h1, List.pairwise_append]
    refine ⟨hpair, List.pairwise_singleton _ _, ?_⟩
    intro a ha b hb
    rw [List.mem_singleton] at hb
    subst hb
    exact placedOk_disjoint_new (hmid a ha)

/-- One successful packing step preserves the disjointness invariant. -/
lemma packInv_processGlyph {texW : Nat} {st : PackState} {c : Char} {g : Glyph}
    {st' : PackState} (h : processGlyph texW st c g = some st') (hinv : PackInv st) :
    PackInv st' := by
  obtain ⟨h1, h2, h3, h4, -⟩ := processGlyph_spec h
  by_cases hcr : texW ≤ st.cursor.1 + g.width
  · simp only [if_pos hcr] at h1 h2 h3 h4
    rw [Nat.max_eq_right (Nat.zero_le _)] at h4
    exact packInv_core h1 h2 h3 (by rw [h4]; omega)
      (fun p hp => placedOk_wrap (hinv.1 p hp)) hinv.2
  · simp only [if_neg hcr] at h1 h2 h3 h4
    exact packInv_core h1 h2 h3 h4 hinv.1 hinv.2

/-- The whole packing loop preserves the disjointness invariant. -/
lemma packInv_packChars {raster : Char → Option Glyph} {texW : Nat} {chars : List Char}
    {st st' : PackState} (h : packChars raster texW chars st = some st')
    (hinv : PackInv st) : PackInv st' := by
  induction chars generalizing st with
  | nil =>
    rw [packChars, Option.some.injEq] at h
    subst h
    exact hinv
  | cons c rest ih =>
    rw [packChars] at h
    cases hrc : raster c with
    | none =>
      rw [packChar, hrc] at h
      rw [Option.some_bind] at h
      exact ih h hinv
    | some g =>
      have hpc : packChar raster texW st c = processGlyph texW st c g := by
        rw [packChar, hrc]
      rw [hpc] at h
      cases hpg : processGlyph texW st c g with
      | none => rw [hpg] at h; exact Option.noConfusion h
      | some st1 =>
        rw [hpg, Option.some_bind] at h
        exact ih h (packInv_processGlyph hpg hinv)

/-- C4: in any successful packing run, the pixel-space rectangles recorded
for two distinct glyph entries are disjoint: no texel position lies inside
both rectangles. -/
theorem c4_rect_disjoint (raster : Char → Option Glyph) (texW : Nat) (chars : List Char)
    (st : PackState) (h : packChars raster texW chars initPackState = some st)
    (i j : Fin st.infos.length) (hij : i ≠ j) (px py : ℚ) :
    ¬ (texelIn px py (st.infos.get i).2 ∧ texelIn px py (st.infos.get j).2) := by
  have hinv0 : PackInv initPackState :=
    ⟨fun p hp => absurd hp (List.not_mem_nil p), List.Pairwise.nil⟩
  have hinv := packInv_packChars h hinv0
  have hpw := hinv.2
  rw [List.pairwise_iff_get] at hpw
  rcases lt_or_gt_of_ne hij with hlt | hgt
  · exact hpw i j hlt px py
  · intro hboth
    exact hpw j i hgt px py ⟨hboth.2, hboth.1⟩

/-- Witness for c4_rect_disjoint at a concrete two-glyph run and texel. -/
theorem c4_rect_disjoint_witness :
    ¬ (texelIn 0 0 (stTwoNoRows.infos.get ⟨0, by decide⟩).2 ∧
       texelIn 0 0 (stTwoNoRows.infos.get ⟨1, by decide⟩).2) :=
  c4_rect_disjoint cexNoRowsRaster 2 ['a', 'b'] stTwoNoRows (by decide)
    ⟨0, by decide⟩ ⟨1, by decide⟩ (by decide) 0 0
